import Mathlib

/-!
Shallow embedding of src/llvm/lib/Transforms/Instrumentation/SanitizerBinaryMetadata.cpp.
Line numbers in doc comments refer to that file.
-/

namespace SanitizerBinaryMetadata

/-- Source line 52: the base format version; it occupies the lower 16 bits. -/
def kVersionBase : Nat := 1

/-- Source line 53: flag bit meaning offsets inside emitted records are pointer-sized. -/
def kVersionPtrSizeRel : Nat := 2 ^ 16

/-- Source line 54: the fixed priority passed to appendToGlobalCtors and appendToGlobalDtors. -/
def kCtorDtorPriority : Nat := 2

/-- Modelled from the spec: the feature-bit constants are declared in the pass's public
header (llvm/Transforms/Instrumentation/SanitizerBinaryMetadata.h), which is not under
src/. Per the spec, Coverage carries no dedicated feature bit (0) while Atomics and UAR
carry distinct single bits. -/
def kSanitizerBinaryMetadataNone : Nat := 0

/-- Feature bit of Atomics metadata (bit 0); see kSanitizerBinaryMetadataNone. -/
def kSanitizerBinaryMetadataAtomics : Nat := 1

/-- Feature bit of UAR metadata (bit 1); see kSanitizerBinaryMetadataNone. -/
def kSanitizerBinaryMetadataUAR : Nat := 2

/-- Modelled from the spec: the section-suffix string constants are declared in the pass's
public header, not under src/; the spec says each kind has a fixed section-name suffix
(a covered suffix and an atomics suffix). -/
def kSanitizerBinaryMetadataCoveredSection : String := "sanmd_covered"

/-- Section suffix of Atomics metadata; see kSanitizerBinaryMetadataCoveredSection. -/
def kSanitizerBinaryMetadataAtomicsSection : String := "sanmd_atomics"

/-- The two MetadataInfo singletons, MetadataInfo::Covered and MetadataInfo::Atomics
(source lines 58-79), as a closed enumeration. -/
inductive MetadataKind where
  | covered
  | atomics
  deriving DecidableEq

/-- MetadataInfo::FunctionPrefix of each kind (source lines 74-79). -/
def functionPrefixName : MetadataKind → String
  | MetadataKind.covered => "__sanitizer_metadata_covered"
  | MetadataKind.atomics => "__sanitizer_metadata_atomics"

/-- MetadataInfo::SectionSuffix of each kind (source lines 74-79). -/
def sectionSuffix : MetadataKind → String
  | MetadataKind.covered => kSanitizerBinaryMetadataCoveredSection
  | MetadataKind.atomics => kSanitizerBinaryMetadataAtomicsSection

/-- MetadataInfo::FeatureMask of each kind (source lines 74-79). -/
def featureMaskOf : MetadataKind → Nat
  | MetadataKind.covered => kSanitizerBinaryMetadataNone
  | MetadataKind.atomics => kSanitizerBinaryMetadataAtomics

/-- MetadataInfoSet is a SetVector (source line 84): insertion-ordered and duplicate-free.
We model it as a list, and SetVector::insert as append-if-absent. -/
def misInsert (s : List MetadataKind) (k : MetadataKind) : List MetadataKind :=
  if k ∈ s then s else s ++ [k]

/-- Modelled from the spec: SanitizerBinaryMetadataOptions (declared in the pass's public
header, not under src/) is three independent booleans. Command-line overrides are already
ORed in (transformOptionsFromCl, source lines 108-114; the cl options default to false). -/
structure Options where
  covered : Bool
  atomics : Bool
  uar : Bool

/-- Modelled from the host IR (not under src/): the facets of a called function read by
isUARSafeCall: whether it is an intrinsic, whether it never returns, and its name. -/
structure Callee where
  isIntrinsic : Bool
  doesNotReturn : Bool
  name : String

mutual
/-- Modelled from the host IR (not under src/): one user of a value, as classified by
hasUseAfterReturnUnsafeUses (source lines 290-317). Each user is exactly one of the
syntactic categories the source dispatches on; a user reached through a
GetElementPtrInst or a BitCastInst carries its own users. A storeUse records whether the
value under inspection is the store's destination operand; a non-instruction user is
otherUse. -/
inductive UARUser where
  | lifetimeOrDroppable
  | loadUse
  | storeUse (destIsThis : Bool)
  | callUse (co : Option Callee)
  | gepUse (us : UseList)
  | bitcastUse (us : UseList)
  | otherUse

/-- The users of one value, in iteration order. -/
inductive UseList where
  | nil
  | cons (u : UARUser) (us : UseList)
end

/-- Dispatch kind of an instruction as queried by useAfterReturnUnsafe (source lines
319-328): an AllocaInst (with its users), a CallInst (with tail-call flag and called
function), or anything else. -/
inductive InstrKind where
  | allocaKind (users : UseList)
  | callKind (tailCall : Bool) (callee : Option Callee)
  | otherKind

/-- Modelled from the host IR (not under src/): the facets of one instruction that the
pass queries: its dispatch kind, Instruction::mayReadOrWriteMemory, and
getAtomicSyncScopeID (none when the instruction is not an atomic memory operation;
scope id 0 is SyncScope::SingleThread, wider scopes have other ids, e.g. 1 = System). -/
structure Instruction where
  kind : InstrKind
  mayRW : Bool
  atomicScope : Option Nat

/-- SyncScope::SingleThread has id 0 in the host IR. -/
def syncScopeSingleThread : Nat := 0

/-- isUARSafeCall (source lines 274-288). -/
def isUARSafeCall (co : Option Callee) : Bool :=
  match co with
  | none => false
  | some f =>
    f.isIntrinsic || f.doesNotReturn ||
    (f.name.startsWith "__asan_") || (f.name.startsWith "__hwsan_") ||
    (f.name.startsWith "__ubsan_") || (f.name.startsWith "__msan_") ||
    (f.name.startsWith "__tsan_")

mutual
/-- Outcome of one loop iteration of hasUseAfterReturnUnsafeUses (source lines 291-315)
for a single user: true when that user is an unsafe use of the inspected value. The
source tests the categories in sequence with early continue; since every user is exactly
one category, this collapses to a per-constructor result. -/
def uarUserMakesValueEscape : UARUser → Bool
  | UARUser.lifetimeOrDroppable => false
  | UARUser.callUse co => !(isUARSafeCall co)
  | UARUser.loadUse => false
  | UARUser.storeUse destIsThis => !destIsThis
  | UARUser.gepUse us => hasUseAfterReturnUnsafeUses us
  | UARUser.bitcastUse us => hasUseAfterReturnUnsafeUses us
  | UARUser.otherUse => true

/-- hasUseAfterReturnUnsafeUses (source lines 290-317): true when some user of the value
is unsafe. -/
def hasUseAfterReturnUnsafeUses : UseList → Bool
  | UseList.nil => false
  | UseList.cons u us => uarUserMakesValueEscape u || hasUseAfterReturnUnsafeUses us
end

/-- useAfterReturnUnsafe (source lines 319-328). -/
def useAfterReturnUnsafeInstr (I : Instruction) : Bool :=
  match I.kind with
  | InstrKind.allocaKind us => hasUseAfterReturnUnsafeUses us
  | InstrKind.callKind tailCall co => tailCall && !(isUARSafeCall co)
  | InstrKind.otherKind => false

/-- SanitizerBinaryMetadata::getEnabledPerInstructionFeature (source lines 129-134). -/
def getEnabledPerInstructionFeature (o : Options) : Nat :=
  if o.atomics then featureMaskOf MetadataKind.atomics else 0

/-- One section entry of an MD_pcsections metadata node: the source attaches pairs of a
section name and a list of auxiliary 32-bit constants (the payload). The section name is
obtained from the kind via getSectionName of its suffix, a bijection, so we record the
kind itself. -/
structure PCSection where
  kind : MetadataKind
  payload : List Nat
  deriving DecidableEq

/-- The InstMetadata list collected for one instruction (source lines 340-345): Atomics
when atomics tracking is on, the instruction may touch memory and it is atomic with a
scope wider than single-thread. -/
def instrMetadataKinds (o : Options) (I : Instruction) : List MetadataKind :=
  if o.atomics && I.mayRW then
    match I.atomicScope with
    | some s => if s ≠ syncScopeSingleThread then [MetadataKind.atomics] else []
    | none => []
  else []

/-- The MD_pcsections node attached to one instruction (source lines 349-356): present
exactly when InstMetadata is non-empty; each listed kind carries an empty payload. -/
def instrAttached (o : Options) (I : Instruction) : Option (List PCSection) :=
  let ks := instrMetadataKinds o I
  if ks.isEmpty then none else some (ks.map (fun k => ⟨k, []⟩))

/-- The UAR update of the running function feature mask (source lines 335-338). -/
def uarUpdatedMask (o : Options) (I : Instruction) (fm : Nat) : Nat :=
  if o.uar && (fm &&& kSanitizerBinaryMetadataUAR == 0) then
    if useAfterReturnUnsafeInstr I then fm ||| kSanitizerBinaryMetadataUAR else fm
  else fm

/-- Everything SanitizerBinaryMetadata::runOn(Instruction&) produces or mutates. -/
structure InstrOutcome where
  featureMask : Nat
  mis : List MetadataKind
  attached : Option (List PCSection)
  requiresCovered : Bool

/-- SanitizerBinaryMetadata::runOn(Instruction&) (source lines 330-359). The returned
requiresCovered is true exactly when atomics tracking is on and the instruction may read
or write memory (source lines 340-347). -/
def runOnInstruction (o : Options) (I : Instruction) (mis : List MetadataKind) (fm : Nat) :
    InstrOutcome :=
  ⟨uarUpdatedMask o I fm,
   (instrMetadataKinds o I).foldl misInsert mis,
   instrAttached o I,
   o.atomics && I.mayRW⟩

/-- State accumulated by the instruction loop of runOn(Function&). -/
structure ScanOutcome where
  mis : List MetadataKind
  featureMask : Nat
  requiresCovered : Bool
  attached : List (Option (List PCSection))

/-- The instruction loop of SanitizerBinaryMetadata::runOn(Function&) (source lines
245-249): classify each instruction in order, threading the metadata-kind set and the
feature mask and ORing the requires-covered flags. -/
def scanInstrs (o : Options) :
    List Instruction → List MetadataKind → Nat → Bool → ScanOutcome
  | [], mis, fm, rc => ⟨mis, fm, rc, []⟩
  | I :: rest, mis, fm, rc =>
    let r := runOnInstruction o I mis fm
    let s := scanInstrs o rest r.mis r.featureMask (rc || r.requiresCovered)
    ⟨s.mis, s.featureMask, s.requiresCovered, r.attached :: s.attached⟩

/-- The facets of a function that runOn(Function&) queries: whether it has no body,
the DisableSanitizerInstrumentation attribute, available_externally linkage, whether it
is variadic, and its instructions (in basic-block iteration order, flattened). -/
structure Function where
  emptyBody : Bool
  disableSanitizerInstrumentation : Bool
  availableExternally : Bool
  isVarArg : Bool
  instrs : List Instruction

/-- The early-return conditions of runOn(Function&) (source lines 227-233). -/
def skippedFunc (F : Function) : Bool :=
  F.emptyBody || F.disableSanitizerInstrumentation || F.availableExternally

/-- Everything SanitizerBinaryMetadata::runOn(Function&) produces or mutates. -/
structure FuncOutcome where
  mis : List MetadataKind
  attached : List (Option (List PCSection))
  funcAttached : Option (List PCSection)
  finalFeatureMask : Nat
  requiresCovered : Bool

/-- The guarded instruction scan of runOn(Function&) (source lines 239-249): the scan
runs only when the initial feature mask is non-zero or UAR tracking is on. -/
def scanOrDefault (o : Options) (F : Function) (mis : List MetadataKind) : ScanOutcome :=
  let fm0 := getEnabledPerInstructionFeature o
  if fm0 ≠ 0 ∨ o.uar = true then scanInstrs o F.instrs mis fm0 false
  else ⟨mis, fm0, false, F.instrs.map (fun _ => none)⟩

/-- The variadic-function adjustment (source lines 251-252): clear the UAR bit, as a
32-bit AND with the complement of the UAR bit. -/
def postVarArgMask (F : Function) (m : Nat) : Nat :=
  if F.isVarArg then m &&& (4294967295 ^^^ kSanitizerBinaryMetadataUAR) else m

/-- SanitizerBinaryMetadata::runOn(Function&) (source lines 226-272). -/
def runOnFunction (o : Options) (F : Function) (mis : List MetadataKind) : FuncOutcome :=
  if skippedFunc F then ⟨mis, F.instrs.map (fun _ => none), none, 0, false⟩
  else
    let s := scanOrDefault o F mis
    let fm1 := postVarArgMask F s.featureMask
    let rc := if fm1 &&& kSanitizerBinaryMetadataUAR ≠ 0 then true else s.requiresCovered
    if o.covered = true ∨ (fm1 ≠ 0 ∧ rc = true) then
      ⟨misInsert s.mis MetadataKind.covered, s.attached,
       some [⟨MetadataKind.covered, [fm1]⟩], fm1, rc⟩
    else
      ⟨s.mis, s.attached, none, fm1, rc⟩

/-- Code models the pass distinguishes (Module::getCodeModel). -/
inductive CodeModel where
  | tiny
  | small
  | kernel
  | medium
  | large
  deriving DecidableEq

/-- The facets of a module the pass queries: its functions in iteration order, its
optional code model, and whether the target triple supports COMDAT. -/
structure Module where
  funcs : List Function
  codeModel : Option CodeModel
  supportsComdat : Bool

/-- SanitizerBinaryMetadata::getVersion (source lines 136-142). -/
def getVersion (cm : Option CodeModel) : Nat :=
  if cm = some CodeModel.medium ∨ cm = some CodeModel.large then
    kVersionBase ||| kVersionPtrSizeRel
  else kVersionBase

/-- getSectionStart (source lines 377-379), applied to getSectionName which is the
identity on ELF (source lines 372-375). -/
def getSectionStartName (sfx : String) : String := "__start_" ++ sfx

/-- getSectionEnd (source lines 381-383). -/
def getSectionEndName (sfx : String) : String := "__stop_" ++ sfx

/-- One registration/deregistration entry-point pair created by the loop of
SanitizerBinaryMetadata::run (source lines 194-221): the ctor and dtor names, the
runtime callback names, and the three init arguments (version, section start marker,
section end marker); comdat records whether COMDAT deduplication was applied. -/
structure RegPair where
  kind : MetadataKind
  ctorName : String
  dtorName : String
  addCallback : String
  delCallback : String
  version : Nat
  startMarker : String
  endMarker : String
  comdat : Bool
  deriving DecidableEq

/-- Builds the RegPair for one metadata kind (source lines 194-218). -/
def mkRegPair (v : Nat) (comdat : Bool) (k : MetadataKind) : RegPair :=
  ⟨k,
   functionPrefixName k ++ ".module_ctor",
   functionPrefixName k ++ ".module_dtor",
   functionPrefixName k ++ "_add",
   functionPrefixName k ++ "_del",
   v,
   getSectionStartName (sectionSuffix k),
   getSectionEndName (sectionSuffix k),
   comdat⟩

/-- One entry of llvm.global_ctors or llvm.global_dtors as appended by
appendToGlobalCtors / appendToGlobalDtors (source lines 219-220): a priority and the
entry-point name. -/
structure CtorEntry where
  priority : Nat
  entryName : String
  deriving DecidableEq

/-- The function loop of SanitizerBinaryMetadata::run (source lines 177-178), returning
the final metadata-kind set and each function's outcome in order. -/
def processFunctions (o : Options) :
    List Function → List MetadataKind → List MetadataKind × List FuncOutcome
  | [], mis => (mis, [])
  | F :: rest, mis =>
    let r := runOnFunction o F mis
    let p := processFunctions o rest r.mis
    (p.1, r :: p.2)

/-- The section start/stop markers created by the emission loop (source lines 196-198),
two per metadata kind, in set order. -/
def sectionMarkersOf (l : List MetadataKind) : List String :=
  l.foldr
    (fun k acc =>
      getSectionStartName (sectionSuffix k) :: getSectionEndName (sectionSuffix k) :: acc)
    []

/-- Everything SanitizerBinaryMetadata::run produces. -/
structure ModuleOutcome where
  changed : Bool
  funcResults : List FuncOutcome
  mis : List MetadataKind
  version : Option Nat
  sectionMarkers : List String
  regPairs : List RegPair
  globalCtors : List CtorEntry
  globalDtors : List CtorEntry

/-- SanitizerBinaryMetadata::run (source lines 174-224): process every function, and if
the metadata-kind set ended up empty return unchanged with nothing emitted; otherwise
compute the version once and emit, per kind in set order, the section markers, the
registration/deregistration pair, and the global ctor/dtor entries at the fixed
priority. -/
def runModule (o : Options) (M : Module) : ModuleOutcome :=
  let p := processFunctions o M.funcs []
  if p.1.isEmpty then ⟨false, p.2, p.1, none, [], [], [], []⟩
  else
    let v := getVersion M.codeModel
    let pairs := p.1.map (mkRegPair v M.supportsComdat)
    ⟨true, p.2, p.1, some v, sectionMarkersOf p.1, pairs,
     pairs.map (fun pr => ⟨kCtorDtorPriority, pr.ctorName⟩),
     pairs.map (fun pr => ⟨kCtorDtorPriority, pr.dtorName⟩)⟩

/-- The two possible results of SanitizerBinaryMetadataPass::run. -/
inductive PreservedAnalyses where
  | preservedAll
  | preservedNone
  deriving DecidableEq

/-- SanitizerBinaryMetadataPass::run (source lines 391-397). -/
def passRun (o : Options) (M : Module) : PreservedAnalyses :=
  if (runModule o M).changed then PreservedAnalyses.preservedNone
  else PreservedAnalyses.preservedAll

/-- Modelled from the spec: the typical default priority of entries on the module's
global-constructor and global-destructor lists (the priority ordinary static
initializers receive when none is specified); the append helpers and the loader live
outside src/. -/
def defaultGlobalCtorDtorPriority : Nat := 65535

/-- Modelled from the repository's documented llvm.global_ctors semantics (the append
helper appendToGlobalCtors and the loader contract are not under src/): the entries of
the module's global-constructor list are executed in ascending order of priority, lowest
first, so entry a runs before entry b exactly when a's priority is smaller. -/
def ctorExecutesBefore (a b : CtorEntry) : Prop := a.priority < b.priority

/-- Modelled from the repository's documented llvm.global_dtors semantics (not under
src/): the entries of the module's global-destructor list are executed in descending
order of priority, highest first, so entry a runs before entry b exactly when a's
priority is larger. -/
def dtorExecutesBefore (a b : CtorEntry) : Prop := b.priority < a.priority

instance (a b : CtorEntry) : Decidable (ctorExecutesBefore a b) :=
  Nat.decLt a.priority b.priority

instance (a b : CtorEntry) : Decidable (dtorExecutesBefore a b) :=
  Nat.decLt b.priority a.priority

/-! Concrete fixtures used by witnesses and counterexamples. -/

/-- Options with only Atomics emission enabled. -/
def atomicsOnlyOpts : Options := ⟨false, true, false⟩

/-- Options with only UAR emission enabled. -/
def uarOnlyOpts : Options := ⟨false, false, true⟩

/-- An atomic load with system-wide scope (scope id 1 = SyncScope::System). -/
def atomLoad : Instruction := ⟨InstrKind.otherKind, true, some 1⟩

/-- A function whose single instruction is the system-scope atomic load. -/
def oneAtomicFunc : Function := ⟨false, false, false, false, [atomLoad]⟩

/-- A module with exactly one function containing a single system-scope atomic load. -/
def oneAtomicModule : Module := ⟨[oneAtomicFunc], none, true⟩

/-- The one-atomic-load module with a large code model. -/
def largeCMAtomicModule : Module := ⟨[oneAtomicFunc], some CodeModel.large, true⟩

/-- An instruction that touches no memory and is not atomic. -/
def pureInstr : Instruction := ⟨InstrKind.otherKind, false, none⟩

/-- A function whose single instruction neither touches memory nor is atomic. -/
def pureFunc : Function := ⟨false, false, false, false, [pureInstr]⟩

/-- A declaration-only function (no body). -/
def declOnlyFunc : Function := ⟨true, false, false, false, []⟩

/-- A module containing only a declaration. -/
def declOnlyModule : Module := ⟨[declOnlyFunc], none, true⟩

/-- A stack allocation whose address escapes through an unclassified user. -/
def escapingAlloca : Instruction :=
  ⟨InstrKind.allocaKind (UseList.cons UARUser.otherUse UseList.nil), false, none⟩

/-- A variadic function containing the escaping stack allocation. -/
def varargFunc : Function := ⟨false, false, false, true, [escapingAlloca]⟩

/-- A use list exercising every safe-use category of the claim: a load, a lifetime
marker, a store with the allocation as destination, a call to an intrinsic, and a GEP
whose only transitive use is a load. -/
def allSafeUses : UseList :=
  UseList.cons UARUser.loadUse
    (UseList.cons UARUser.lifetimeOrDroppable
      (UseList.cons (UARUser.storeUse true)
        (UseList.cons (UARUser.callUse (some ⟨true, false, "llvm.lifetime.start"⟩))
          (UseList.cons (UARUser.gepUse (UseList.cons UARUser.loadUse UseList.nil))
            UseList.nil))))

/-- An instruction that may read or write memory but is not atomic. -/
def memInstr : Instruction := ⟨InstrKind.otherKind, true, none⟩

/-- A function whose single instruction touches memory but is not atomic. -/
def memFunc : Function := ⟨false, false, false, false, [memInstr]⟩

/-- True when an attached instruction record lists the Atomics kind. -/
def attHasAtomics (md : Option (List PCSection)) : Bool :=
  (md.getD []).any (fun s => decide (s.kind = MetadataKind.atomics))

/-- True when some instruction of the function outcome carries an Atomics record. -/
def hasAtomicsRecord (fo : FuncOutcome) : Bool :=
  fo.attached.any attHasAtomics

/-- True when the function outcome carries a function-level Coverage record. -/
def hasCoveredRecord (fo : FuncOutcome) : Bool :=
  fo.funcAttached.isSome

mutual
/-- The safe-use categories enumerated by the claim, for one user: a load, a lifetime
annotation, a droppable use, a store with the allocation as destination operand, a call
to an intrinsic, never-returning, or sanitizer-name-prefixed function, or a
pointer-arithmetic / no-op pointer-cast instruction all of whose own uses are safe. -/
def claimSafeUser : UARUser → Bool
  | UARUser.lifetimeOrDroppable => true
  | UARUser.loadUse => true
  | UARUser.storeUse destIsThis => destIsThis
  | UARUser.callUse none => false
  | UARUser.callUse (some f) =>
    f.isIntrinsic || f.doesNotReturn ||
    (f.name.startsWith "__asan_") || (f.name.startsWith "__hwsan_") ||
    (f.name.startsWith "__ubsan_") || (f.name.startsWith "__msan_") ||
    (f.name.startsWith "__tsan_")
  | UARUser.gepUse us => claimSafeUses us
  | UARUser.bitcastUse us => claimSafeUses us
  | UARUser.otherUse => false

/-- All users in the list are safe in the claim's sense. -/
def claimSafeUses : UseList → Bool
  | UseList.nil => true
  | UseList.cons u us => claimSafeUser u && claimSafeUses us
end

/-! Helper lemmas. -/

theorem testBit_one_eq (i : Nat) : Nat.testBit 1 i = decide (i = 0) := by
  match i with
  | 0 => decide
  | n + 1 =>
    rw [Nat.testBit_succ]
    simp [Nat.zero_testBit]

theorem testBit_two_eq (i : Nat) : Nat.testBit 2 i = decide (i = 1) := by
  match i with
  | 0 => decide
  | 1 => decide
  | n + 2 =>
    rw [Nat.testBit_succ, Nat.testBit_succ]
    simp [Nat.zero_testBit]

theorem land_uar_eq_zero_of (x : Nat) (h : x.testBit 1 = false) :
    x &&& kSanitizerBinaryMetadataUAR = 0 := by
  apply Nat.eq_of_testBit_eq
  intro i
  rw [Nat.testBit_land, Nat.zero_testBit]
  show (x.testBit i && Nat.testBit 2 i) = false
  rw [testBit_two_eq]
  match i with
  | 0 => simp
  | 1 => simp [h]
  | n + 2 => simp

theorem land_atomics_of_testBit (x : Nat) (h : x.testBit 0 = true) :
    x &&& kSanitizerBinaryMetadataAtomics = kSanitizerBinaryMetadataAtomics := by
  apply Nat.eq_of_testBit_eq
  intro i
  rw [Nat.testBit_land]
  show (x.testBit i && Nat.testBit 1 i) = Nat.testBit 1 i
  rw [testBit_one_eq]
  match i with
  | 0 => simp [h]
  | n + 1 => simp

theorem ne_zero_of_testBit_zero (x : Nat) (h : x.testBit 0 = true) : x ≠ 0 := by
  intro h0
  rw [h0, Nat.zero_testBit] at h
  exact Bool.false_ne_true h

theorem clearUAR_testBit_zero :
    Nat.testBit (4294967295 ^^^ kSanitizerBinaryMetadataUAR) 0 = true := by decide

theorem clearUAR_testBit_one :
    Nat.testBit (4294967295 ^^^ kSanitizerBinaryMetadataUAR) 1 = false := by decide

theorem mem_misInsert (s : List MetadataKind) (k k2 : MetadataKind) :
    k ∈ misInsert s k2 ↔ (k ∈ s ∨ k = k2) := by
  unfold misInsert
  by_cases h : k2 ∈ s
  · rw [if_pos h]
    constructor
    · exact fun hk => Or.inl hk
    · intro hk
      rcases hk with hk | hk
      · exact hk
      · rwa [hk]
  · rw [if_neg h]
    simp [List.mem_append]

theorem instrMetadataKinds_cases (o : Options) (I : Instruction) :
    instrMetadataKinds o I = [] ∨ instrMetadataKinds o I = [MetadataKind.atomics] := by
  unfold instrMetadataKinds
  split
  · split
    · split
      · exact Or.inr rfl
      · exact Or.inl rfl
    · exact Or.inl rfl
  · exact Or.inl rfl

theorem attHasAtomics_instrAttached (o : Options) (I : Instruction) :
    attHasAtomics (instrAttached o I) = !(instrMetadataKinds o I).isEmpty := by
  rcases instrMetadataKinds_cases o I with h | h <;>
    simp [instrAttached, attHasAtomics, h]

theorem uarUpdatedMask_testBit_zero (o : Options) (I : Instruction) (fm : Nat) :
    (uarUpdatedMask o I fm).testBit 0 = fm.testBit 0 := by
  unfold uarUpdatedMask
  split
  · split
    · rw [Nat.testBit_lor]
      show (fm.testBit 0 || Nat.testBit 2 0) = fm.testBit 0
      rw [testBit_two_eq]
      simp
    · rfl
  · rfl

theorem runOnInstruction_mem_mis (o : Options) (I : Instruction) (mis : List MetadataKind)
    (fm : Nat) (k : MetadataKind) :
    k ∈ (runOnInstruction o I mis fm).mis
      ↔ (k ∈ mis ∨ (k = MetadataKind.atomics ∧ attHasAtomics (instrAttached o I) = true)) := by
  rcases instrMetadataKinds_cases o I with h | h <;>
    simp [runOnInstruction, h, attHasAtomics_instrAttached, mem_misInsert]

theorem scanInstrs_attached (o : Options) (L : List Instruction) (mis : List MetadataKind)
    (fm : Nat) (rc : Bool) :
    (scanInstrs o L mis fm rc).attached = L.map (instrAttached o) := by
  induction L generalizing mis fm rc with
  | nil => rfl
  | cons I rest ih => simp [scanInstrs, runOnInstruction, ih]

theorem scanInstrs_requiresCovered (o : Options) (L : List Instruction)
    (mis : List MetadataKind) (fm : Nat) (rc : Bool) :
    (scanInstrs o L mis fm rc).requiresCovered
      = (rc || L.any (fun I => o.atomics && I.mayRW)) := by
  induction L generalizing mis fm rc with
  | nil => simp [scanInstrs]
  | cons I rest ih => simp [scanInstrs, runOnInstruction, ih, Bool.or_assoc]

theorem scanInstrs_testBit_zero (o : Options) (L : List Instruction)
    (mis : List MetadataKind) (fm : Nat) (rc : Bool) :
    (scanInstrs o L mis fm rc).featureMask.testBit 0 = fm.testBit 0 := by
  induction L generalizing mis fm rc with
  | nil => rfl
  | cons I rest ih =>
    show (scanInstrs o rest _ (uarUpdatedMask o I fm) _).featureMask.testBit 0 = fm.testBit 0
    rw [ih, uarUpdatedMask_testBit_zero]

theorem scanInstrs_mem_mis (o : Options) (L : List Instruction) (mis : List MetadataKind)
    (fm : Nat) (rc : Bool) (k : MetadataKind) :
    k ∈ (scanInstrs o L mis fm rc).mis
      ↔ (k ∈ mis ∨ (k = MetadataKind.atomics
          ∧ (L.map (instrAttached o)).any attHasAtomics = true)) := by
  induction L generalizing mis fm rc with
  | nil => simp [scanInstrs]
  | cons I rest ih =>
    show k ∈ (scanInstrs o rest (runOnInstruction o I mis fm).mis _ _).mis ↔ _
    rw [ih]
    rw [runOnInstruction_mem_mis]
    simp only [List.map_cons, List.any_cons, Bool.or_eq_true]
    tauto

theorem getEnabled_of_atomics (o : Options) (ha : o.atomics = true) :
    getEnabledPerInstructionFeature o = kSanitizerBinaryMetadataAtomics := by
  simp [getEnabledPerInstructionFeature, ha, featureMaskOf]

theorem scanOrDefault_of_atomics (o : Options) (F : Function) (mis : List MetadataKind)
    (ha : o.atomics = true) :
    scanOrDefault o F mis
      = scanInstrs o F.instrs mis (getEnabledPerInstructionFeature o) false := by
  simp only [scanOrDefault]
  rw [if_pos]
  left
  rw [getEnabled_of_atomics o ha]
  decide

theorem scanOrDefault_mem_atomics (o : Options) (F : Function) (mis : List MetadataKind) :
    MetadataKind.atomics ∈ (scanOrDefault o F mis).mis
      ↔ (MetadataKind.atomics ∈ mis
          ∨ (scanOrDefault o F mis).attached.any attHasAtomics = true) := by
  simp only [scanOrDefault]
  split
  · rw [scanInstrs_mem_mis, scanInstrs_attached]
    simp
  · simp [attHasAtomics, List.any_map]

theorem scanOrDefault_mem_covered (o : Options) (F : Function) (mis : List MetadataKind) :
    MetadataKind.covered ∈ (scanOrDefault o F mis).mis ↔ MetadataKind.covered ∈ mis := by
  simp only [scanOrDefault]
  split
  · rw [scanInstrs_mem_mis]
    simp
  · exact Iff.rfl

theorem scanOrDefault_testBit_zero (o : Options) (F : Function) (mis : List MetadataKind) :
    (scanOrDefault o F mis).featureMask.testBit 0
      = (getEnabledPerInstructionFeature o).testBit 0 := by
  simp only [scanOrDefault]
  split
  · rw [scanInstrs_testBit_zero]
  · rfl

theorem postVarArgMask_testBit_zero (F : Function) (m : Nat) :
    (postVarArgMask F m).testBit 0 = m.testBit 0 := by
  unfold postVarArgMask
  split
  · rw [Nat.testBit_land, clearUAR_testBit_zero, Bool.and_true]
  · rfl

theorem postVarArgMask_testBit_one_of_vararg (F : Function) (m : Nat)
    (h : F.isVarArg = true) :
    (postVarArgMask F m).testBit 1 = false := by
  unfold postVarArgMask
  rw [if_pos h, Nat.testBit_land, clearUAR_testBit_one, Bool.and_false]

theorem runOnFunction_not_skipped (o : Options) (F : Function) (mis : List MetadataKind)
    (hsk : skippedFunc F = false) :
    runOnFunction o F mis
      = (let s := scanOrDefault o F mis
         let fm1 := postVarArgMask F s.featureMask
         let rc :=
           if fm1 &&& kSanitizerBinaryMetadataUAR ≠ 0 then true else s.requiresCovered
         if o.covered = true ∨ (fm1 ≠ 0 ∧ rc = true) then
           ⟨misInsert s.mis MetadataKind.covered, s.attached,
            some [⟨MetadataKind.covered, [fm1]⟩], fm1, rc⟩
         else ⟨s.mis, s.attached, none, fm1, rc⟩) := by
  unfold runOnFunction
  rw [hsk]
  rfl

theorem runOnFunction_attached_of (o : Options) (F : Function) (mis : List MetadataKind)
    (hsk : skippedFunc F = false) :
    (runOnFunction o F mis).attached = (scanOrDefault o F mis).attached := by
  rw [runOnFunction_not_skipped o F mis hsk]
  dsimp only
  split <;> split <;> rfl

theorem runOnFunction_mask_of (o : Options) (F : Function) (mis : List MetadataKind)
    (hsk : skippedFunc F = false) :
    (runOnFunction o F mis).finalFeatureMask
      = postVarArgMask F (scanOrDefault o F mis).featureMask := by
  rw [runOnFunction_not_skipped o F mis hsk]
  dsimp only
  split <;> split <;> rfl

theorem runOnFunction_rc_of (o : Options) (F : Function) (mis : List MetadataKind)
    (hsk : skippedFunc F = false) :
    (runOnFunction o F mis).requiresCovered
      = (if postVarArgMask F (scanOrDefault o F mis).featureMask
            &&& kSanitizerBinaryMetadataUAR ≠ 0
         then true else (scanOrDefault o F mis).requiresCovered) := by
  rw [runOnFunction_not_skipped o F mis hsk]
  dsimp only
  split <;> split <;> rfl

theorem runOnFunction_funcAttached_of (o : Options) (F : Function)
    (mis : List MetadataKind) (hsk : skippedFunc F = false) :
    (runOnFunction o F mis).funcAttached
      = (if o.covered = true
            ∨ (postVarArgMask F (scanOrDefault o F mis).featureMask ≠ 0
                ∧ (if postVarArgMask F (scanOrDefault o F mis).featureMask
                      &&& kSanitizerBinaryMetadataUAR ≠ 0
                   then true else (scanOrDefault o F mis).requiresCovered) = true)
         then
           some [⟨MetadataKind.covered,
                  [postVarArgMask F (scanOrDefault o F mis).featureMask]⟩]
         else none) := by
  rw [runOnFunction_not_skipped o F mis hsk]
  dsimp only
  split <;> split <;> rfl

theorem runOnFunction_mem_atomics (o : Options) (F : Function) (mis : List MetadataKind) :
    MetadataKind.atomics ∈ (runOnFunction o F mis).mis
      ↔ (MetadataKind.atomics ∈ mis ∨ hasAtomicsRecord (runOnFunction o F mis) = true) := by
  cases hsk : skippedFunc F with
  | true => simp [runOnFunction, hsk, hasAtomicsRecord, attHasAtomics, List.any_map]
  | false =>
    rw [show hasAtomicsRecord (runOnFunction o F mis)
          = (scanOrDefault o F mis).attached.any attHasAtomics from by
        rw [hasAtomicsRecord, runOnFunction_attached_of o F mis hsk]]
    rw [runOnFunction_not_skipped o F mis hsk]
    dsimp only
    split <;> split
    · rw [show (FuncOutcome.mk (misInsert (scanOrDefault o F mis).mis MetadataKind.covered)
            (scanOrDefault o F mis).attached _ _ _).mis
          = misInsert (scanOrDefault o F mis).mis MetadataKind.covered from rfl]
      rw [mem_misInsert, scanOrDefault_mem_atomics]
      simp
    · rw [show (FuncOutcome.mk (scanOrDefault o F mis).mis
            (scanOrDefault o F mis).attached _ _ _).mis
          = (scanOrDefault o F mis).mis from rfl]
      exact scanOrDefault_mem_atomics o F mis
    · rw [show (FuncOutcome.mk (misInsert (scanOrDefault o F mis).mis MetadataKind.covered)
            (scanOrDefault o F mis).attached _ _ _).mis
          = misInsert (scanOrDefault o F mis).mis MetadataKind.covered from rfl]
      rw [mem_misInsert, scanOrDefault_mem_atomics]
      simp
    · rw [show (FuncOutcome.mk (scanOrDefault o F mis).mis
            (scanOrDefault o F mis).attached _ _ _).mis
          = (scanOrDefault o F mis).mis from rfl]
      exact scanOrDefault_mem_atomics o F mis

theorem runOnFunction_mem_covered (o : Options) (F : Function) (mis : List MetadataKind) :
    MetadataKind.covered ∈ (runOnFunction o F mis).mis
      ↔ (MetadataKind.covered ∈ mis ∨ hasCoveredRecord (runOnFunction o F mis) = true) := by
  cases hsk : skippedFunc F with
  | true => simp [runOnFunction, hsk, hasCoveredRecord]
  | false =>
    rw [hasCoveredRecord, runOnFunction_not_skipped o F mis hsk]
    dsimp only
    split <;> split
    · rw [mem_misInsert, scanOrDefault_mem_covered]
      simp
    · rw [scanOrDefault_mem_covered]
      simp
    · rw [mem_misInsert, scanOrDefault_mem_covered]
      simp
    · rw [scanOrDefault_mem_covered]
      simp

theorem processFunctions_mem_atomics (o : Options) (L : List Function)
    (mis : List MetadataKind) :
    MetadataKind.atomics ∈ (processFunctions o L mis).1
      ↔ (MetadataKind.atomics ∈ mis
          ∨ (processFunctions o L mis).2.any hasAtomicsRecord = true) := by
  induction L generalizing mis with
  | nil => simp [processFunctions]
  | cons F rest ih =>
    show MetadataKind.atomics ∈ (processFunctions o rest (runOnFunction o F mis).mis).1 ↔ _
    rw [ih, runOnFunction_mem_atomics]
    simp only [processFunctions, List.any_cons, Bool.or_eq_true]
    tauto

theorem processFunctions_mem_covered (o : Options) (L : List Function)
    (mis : List MetadataKind) :
    MetadataKind.covered ∈ (processFunctions o L mis).1
      ↔ (MetadataKind.covered ∈ mis
          ∨ (processFunctions o L mis).2.any hasCoveredRecord = true) := by
  induction L generalizing mis with
  | nil => simp [processFunctions]
  | cons F rest ih =>
    show MetadataKind.covered ∈ (processFunctions o rest (runOnFunction o F mis).mis).1 ↔ _
    rw [ih, runOnFunction_mem_covered]
    simp only [processFunctions, List.any_cons, Bool.or_eq_true]
    tauto

theorem sectionMarkersOf_length (l : List MetadataKind) :
    (sectionMarkersOf l).length = 2 * l.length := by
  induction l with
  | nil => rfl
  | cons k rest ih =>
    show (_ :: _ :: sectionMarkersOf rest).length = 2 * (rest.length + 1)
    simp only [List.length_cons, ih]
    omega

theorem runModule_mis (o : Options) (M : Module) :
    (runModule o M).mis = (processFunctions o M.funcs []).1 := by
  simp only [runModule]
  split <;> rfl

theorem runModule_funcResults (o : Options) (M : Module) :
    (runModule o M).funcResults = (processFunctions o M.funcs []).2 := by
  simp only [runModule]
  split <;> rfl

theorem runModule_regPairs_kinds (o : Options) (M : Module) :
    (runModule o M).regPairs.map RegPair.kind = (runModule o M).mis := by
  simp only [runModule]
  split
  · next h =>
    dsimp only
    rw [List.isEmpty_iff.mp h]
    rfl
  · dsimp only
    rw [List.map_map]
    have hcomp :
        (RegPair.kind ∘ mkRegPair (getVersion M.codeModel) M.supportsComdat) = id :=
      funext (fun k => rfl)
    rw [hcomp, List.map_id]

theorem runModule_markers_len (o : Options) (M : Module) :
    (runModule o M).sectionMarkers.length = 2 * (runModule o M).mis.length := by
  simp only [runModule]
  split
  · next h =>
    dsimp only
    rw [List.isEmpty_iff.mp h]
    rfl
  · exact sectionMarkersOf_length _

theorem mem_globalCtors_priority (o : Options) (M : Module) (e : CtorEntry)
    (he : e ∈ (runModule o M).globalCtors) : e.priority = kCtorDtorPriority := by
  simp only [runModule] at he
  split at he
  · simp at he
  · dsimp only at he
    rcases List.mem_map.mp he with ⟨pr, hpr, hepr⟩
    rw [← hepr]

theorem mem_globalDtors_priority (o : Options) (M : Module) (e : CtorEntry)
    (he : e ∈ (runModule o M).globalDtors) : e.priority = kCtorDtorPriority := by
  simp only [runModule] at he
  split at he
  · simp at he
  · dsimp only at he
    rcases List.mem_map.mp he with ⟨pr, hpr, hepr⟩
    rw [← hepr]

mutual
theorem claimSafeUser_sound :
    ∀ u : UARUser, claimSafeUser u = true → uarUserMakesValueEscape u = false
  | UARUser.lifetimeOrDroppable, _ => rfl
  | UARUser.loadUse, _ => rfl
  | UARUser.storeUse d, h => by
    simp only [claimSafeUser] at h
    simp [uarUserMakesValueEscape, h]
  | UARUser.callUse none, h => by
    exact absurd h (by simp [claimSafeUser])
  | UARUser.callUse (some f), h => by
    simp only [claimSafeUser] at h
    simp [uarUserMakesValueEscape, isUARSafeCall, h]
  | UARUser.gepUse us, h => by
    simp only [claimSafeUser] at h
    simp [uarUserMakesValueEscape, claimSafeUses_sound us h]
  | UARUser.bitcastUse us, h => by
    simp only [claimSafeUser] at h
    simp [uarUserMakesValueEscape, claimSafeUses_sound us h]
  | UARUser.otherUse, h => by
    exact absurd h (by simp [claimSafeUser])

theorem claimSafeUses_sound :
    ∀ us : UseList, claimSafeUses us = true → hasUseAfterReturnUnsafeUses us = false
  | UseList.nil, _ => rfl
  | UseList.cons u us, h => by
    simp only [claimSafeUses, Bool.and_eq_true] at h
    simp [hasUseAfterReturnUnsafeUses, claimSafeUser_sound u h.1,
      claimSafeUses_sound us h.2]
end

/-! Claim theorems. -/

/-- C1 (counterexample): with only the Atomics option enabled, the per-function feature
mask at the start of instruction scanning already has the Atomics bit set, and after
processing a function whose single instruction classifies as nothing (no memory access,
not atomic, so no instruction record is attached), the final mask still equals the
Atomics bit: the option alone contributed a bit before any instruction classification,
contradicting the claim that the mask starts with zero bits for UAR and Atomics. -/
theorem C1_counterexample :
    ¬ ((getEnabledPerInstructionFeature atomicsOnlyOpts)
        &&& kSanitizerBinaryMetadataAtomics = 0)
    ∧ (runOnFunction atomicsOnlyOpts pureFunc []).finalFeatureMask
        = kSanitizerBinaryMetadataAtomics
    ∧ (runOnFunction atomicsOnlyOpts pureFunc []).attached = [none] :=
  ⟨by decide, by decide, by decide⟩

/-- C1 (amended): the per-function feature mask at the start of instruction scanning has
the UAR bit clear, and has the Atomics bit set exactly when the Atomics option is
enabled: the Atomics option alone contributes its bit before any instruction is
classified, while the UAR bit can only be set by per-instruction classification. -/
theorem C1_amended_start_mask (o : Options) :
    (getEnabledPerInstructionFeature o).testBit 1 = false
    ∧ getEnabledPerInstructionFeature o
        = (if o.atomics then kSanitizerBinaryMetadataAtomics else 0) := by
  cases o with
  | mk c a u =>
    cases a
    · exact ⟨by simp [getEnabledPerInstructionFeature],
        by simp [getEnabledPerInstructionFeature]⟩
    · exact ⟨by simp [getEnabledPerInstructionFeature, featureMaskOf,
          kSanitizerBinaryMetadataAtomics, testBit_one_eq],
        by simp [getEnabledPerInstructionFeature, featureMaskOf]⟩

/-- C2 (counterexample): in the one-atomic-load scenario with only Atomics enabled, the
module emits two registration/deregistration entry-point pairs, one for Atomics and one
for Coverage, not exactly one pair for Atomics only. -/
theorem C2_counterexample :
    (runModule atomicsOnlyOpts oneAtomicModule).regPairs.map RegPair.kind
        = [MetadataKind.atomics, MetadataKind.covered]
    ∧ ¬ ((runModule atomicsOnlyOpts oneAtomicModule).regPairs.length = 1) :=
  ⟨by decide, by decide⟩

/-- C2 (amended): for a module with exactly one function containing a single atomic load
of system-wide scope, with only Atomics enabled: the instruction carries an Atomics
record with no payload, the function carries a Coverage record whose feature mask equals
the Atomics bit, and the module emits two registration/deregistration entry-point pairs,
one for Atomics and one for Coverage, in that order. -/
theorem C2_amended_scenario :
    (runModule atomicsOnlyOpts oneAtomicModule).funcResults.map FuncOutcome.attached
        = [[some [⟨MetadataKind.atomics, []⟩]]]
    ∧ (runModule atomicsOnlyOpts oneAtomicModule).funcResults.map FuncOutcome.funcAttached
        = [some [⟨MetadataKind.covered, [kSanitizerBinaryMetadataAtomics]⟩]]
    ∧ (runModule atomicsOnlyOpts oneAtomicModule).regPairs.map RegPair.kind
        = [MetadataKind.atomics, MetadataKind.covered]
    ∧ (runModule atomicsOnlyOpts oneAtomicModule).changed = true :=
  ⟨by decide, by decide, by decide, by decide⟩

/-- C3 (counterexample): in the one-atomic-load module, the registration entry point is
on the global-constructor list at priority 2, and under the constructor list's
ascending-priority execution order it runs before, not after, a typical
default-priority (65535) constructor: ordinary static initializers do not run before
registration, refuting the claimed placement. -/
theorem C3_counterexample :
    (⟨kCtorDtorPriority, "__sanitizer_metadata_atomics.module_ctor"⟩ : CtorEntry)
        ∈ (runModule atomicsOnlyOpts oneAtomicModule).globalCtors
    ∧ ¬ ctorExecutesBefore
        ⟨defaultGlobalCtorDtorPriority, "ordinary_static_entry"⟩
        ⟨kCtorDtorPriority, "__sanitizer_metadata_atomics.module_ctor"⟩
    ∧ ctorExecutesBefore
        ⟨kCtorDtorPriority, "__sanitizer_metadata_atomics.module_ctor"⟩
        ⟨defaultGlobalCtorDtorPriority, "ordinary_static_entry"⟩ :=
  ⟨by decide, by decide, by decide⟩

/-- C3 (amended): every synthesized registration entry point is appended to the module's
global-constructor list and every deregistration entry point to the global-destructor
list, all at the single fixed priority kCtorDtorPriority = 2; since constructor-list
entries execute in ascending priority order and destructor-list entries in descending
order, every emitted registration entry runs before any typical default-priority
constructor (not after it), and every emitted deregistration entry runs after any
typical default-priority destructor: registration/deregistration brackets ordinary
static initialization from the outside. -/
theorem C3_amended_priority_order (o : Options) (M : Module) (e f d : CtorEntry)
    (he : e ∈ (runModule o M).globalCtors)
    (hf : f ∈ (runModule o M).globalDtors)
    (hd : d.priority = defaultGlobalCtorDtorPriority) :
    (runModule o M).globalCtors
        = (runModule o M).regPairs.map (fun p => ⟨kCtorDtorPriority, p.ctorName⟩)
    ∧ (runModule o M).globalDtors
        = (runModule o M).regPairs.map (fun p => ⟨kCtorDtorPriority, p.dtorName⟩)
    ∧ kCtorDtorPriority = 2
    ∧ e.priority = kCtorDtorPriority
    ∧ f.priority = kCtorDtorPriority
    ∧ ctorExecutesBefore e d
    ∧ ¬ ctorExecutesBefore d e
    ∧ dtorExecutesBefore d f := by
  have hep := mem_globalCtors_priority o M e he
  have hfp := mem_globalDtors_priority o M f hf
  refine ⟨?_, ?_, rfl, hep, hfp, ?_, ?_, ?_⟩
  · simp only [runModule]
    split <;> rfl
  · simp only [runModule]
    split <;> rfl
  · show e.priority < d.priority
    rw [hep, hd]
    decide
  · show ¬ (d.priority < e.priority)
    rw [hep, hd]
    decide
  · show f.priority < d.priority
    rw [hfp, hd]
    decide

/-- C3 (witness): the amended theorem applied to the one-atomic-load module, at its
Atomics registration and deregistration entries and a default-priority entry. -/
theorem C3_witness :
    (⟨kCtorDtorPriority, "__sanitizer_metadata_atomics.module_ctor"⟩ : CtorEntry)
        ∈ (runModule atomicsOnlyOpts oneAtomicModule).globalCtors
    ∧ ctorExecutesBefore
        ⟨kCtorDtorPriority, "__sanitizer_metadata_atomics.module_ctor"⟩
        ⟨defaultGlobalCtorDtorPriority, "ordinary_static_entry"⟩
    ∧ dtorExecutesBefore
        ⟨defaultGlobalCtorDtorPriority, "ordinary_static_entry"⟩
        ⟨kCtorDtorPriority, "__sanitizer_metadata_atomics.module_dtor"⟩ :=
  ⟨by decide,
   (C3_amended_priority_order atomicsOnlyOpts oneAtomicModule
      ⟨kCtorDtorPriority, "__sanitizer_metadata_atomics.module_ctor"⟩
      ⟨kCtorDtorPriority, "__sanitizer_metadata_atomics.module_dtor"⟩
      ⟨defaultGlobalCtorDtorPriority, "ordinary_static_entry"⟩
      (by decide) (by decide) rfl).2.2.2.2.2.1,
   (C3_amended_priority_order atomicsOnlyOpts oneAtomicModule
      ⟨kCtorDtorPriority, "__sanitizer_metadata_atomics.module_ctor"⟩
      ⟨kCtorDtorPriority, "__sanitizer_metadata_atomics.module_dtor"⟩
      ⟨defaultGlobalCtorDtorPriority, "ordinary_static_entry"⟩
      (by decide) (by decide) rfl).2.2.2.2.2.2.2⟩

/-- C4: when Atomics tracking is enabled, classifying an atomic memory instruction whose
synchronization scope is broader than single-thread attaches an Atomics record (with no
payload) to that instruction, leaves the enclosing function's final feature mask with
the Atomics bit set, and marks the function as requiring coverage. -/
theorem C4_atomic_instruction (o : Options) (F : Function) (I : Instruction)
    (mis : List MetadataKind) (s : Nat)
    (ha : o.atomics = true) (hsk : skippedFunc F = false) (hIm : I ∈ F.instrs)
    (hrw : I.mayRW = true) (hsc : I.atomicScope = some s)
    (hs : s ≠ syncScopeSingleThread) :
    instrAttached o I = some [⟨MetadataKind.atomics, []⟩]
    ∧ (runOnFunction o F mis).attached = F.instrs.map (instrAttached o)
    ∧ (runOnFunction o F mis).finalFeatureMask &&& kSanitizerBinaryMetadataAtomics
        = kSanitizerBinaryMetadataAtomics
    ∧ (runOnFunction o F mis).requiresCovered = true := by
  have hkinds : instrMetadataKinds o I = [MetadataKind.atomics] := by
    simp [instrMetadataKinds, ha, hrw, hsc, hs]
  have hatt : instrAttached o I = some [⟨MetadataKind.atomics, []⟩] := by
    simp [instrAttached, hkinds]
  have hscan := scanOrDefault_of_atomics o F mis ha
  refine ⟨hatt, ?_, ?_, ?_⟩
  · rw [runOnFunction_attached_of o F mis hsk, hscan, scanInstrs_attached]
  · apply land_atomics_of_testBit
    rw [runOnFunction_mask_of o F mis hsk, postVarArgMask_testBit_zero,
      scanOrDefault_testBit_zero, getEnabled_of_atomics o ha]
    decide
  · rw [runOnFunction_rc_of o F mis hsk]
    have hsrc : (scanOrDefault o F mis).requiresCovered = true := by
      rw [hscan, scanInstrs_requiresCovered]
      simp only [Bool.false_or]
      exact List.any_eq_true.mpr ⟨I, hIm, by simp [ha, hrw]⟩
    rw [hsrc]
    split <;> rfl

/-- C4 (witness): the theorem applied to the one-atomic-load function. -/
theorem C4_witness :
    instrAttached atomicsOnlyOpts atomLoad = some [⟨MetadataKind.atomics, []⟩]
    ∧ (runOnFunction atomicsOnlyOpts oneAtomicFunc []).requiresCovered = true :=
  ⟨(C4_atomic_instruction atomicsOnlyOpts oneAtomicFunc atomLoad [] 1 rfl rfl
      (List.Mem.head _) rfl rfl (by decide)).1,
   (C4_atomic_instruction atomicsOnlyOpts oneAtomicFunc atomLoad [] 1 rfl rfl
      (List.Mem.head _) rfl rfl (by decide)).2.2.2⟩

/-- C5: for every variadic function, the UAR bit is clear in the final per-function
feature mask, and hence in the payload of any emitted Coverage record (which is exactly
the final feature mask), regardless of the function's instructions. -/
theorem C5_vararg_no_uar (o : Options) (F : Function) (mis : List MetadataKind)
    (hva : F.isVarArg = true) :
    (runOnFunction o F mis).finalFeatureMask &&& kSanitizerBinaryMetadataUAR = 0
    ∧ (∀ l, (runOnFunction o F mis).funcAttached = some l
        → l = [⟨MetadataKind.covered, [(runOnFunction o F mis).finalFeatureMask]⟩]) := by
  cases hsk : skippedFunc F with
  | true =>
    constructor
    · simp [runOnFunction, hsk]
    · intro l hl
      simp [runOnFunction, hsk] at hl
  | false =>
    constructor
    · rw [runOnFunction_mask_of o F mis hsk]
      exact land_uar_eq_zero_of _ (postVarArgMask_testBit_one_of_vararg F _ hva)
    · intro l hl
      rw [runOnFunction_funcAttached_of o F mis hsk] at hl
      rw [runOnFunction_mask_of o F mis hsk]
      split at hl <;> split at hl
      all_goals
        first
        | (simp only [Option.some.injEq] at hl
           exact hl.symm)
        | exact Option.noConfusion hl

/-- C5 (witness): the theorem applied to a variadic function whose stack allocation
escapes, with only UAR enabled. -/
theorem C5_witness :
    varargFunc.isVarArg = true
    ∧ ((runOnFunction uarOnlyOpts varargFunc []).finalFeatureMask
          &&& kSanitizerBinaryMetadataUAR = 0
       ∧ ∀ l, (runOnFunction uarOnlyOpts varargFunc []).funcAttached = some l
          → l = [⟨MetadataKind.covered,
                  [(runOnFunction uarOnlyOpts varargFunc []).finalFeatureMask]⟩]) :=
  ⟨rfl, C5_vararg_no_uar uarOnlyOpts varargFunc [] rfl⟩

/-- C6: if after processing every function the module-level metadata-kind set is empty,
the module driver returns no change and emits nothing further: no version constant, no
section markers, no registration pairs, no global ctor/dtor entries, and the pass
reports all analyses preserved. -/
theorem C6_empty_short_circuit (o : Options) (M : Module)
    (h : (processFunctions o M.funcs []).1 = []) :
    (runModule o M).changed = false
    ∧ (runModule o M).version = none
    ∧ (runModule o M).sectionMarkers = []
    ∧ (runModule o M).regPairs = []
    ∧ (runModule o M).globalCtors = []
    ∧ (runModule o M).globalDtors = []
    ∧ passRun o M = PreservedAnalyses.preservedAll := by
  have he : (processFunctions o M.funcs []).1.isEmpty = true := by
    rw [h]
    rfl
  simp [runModule, passRun, he]

/-- C6 (witness): the theorem applied to a module containing only a declaration, with
Atomics enabled. -/
theorem C6_witness :
    (processFunctions atomicsOnlyOpts declOnlyModule.funcs []).1 = []
    ∧ (runModule atomicsOnlyOpts declOnlyModule).changed = false
    ∧ passRun atomicsOnlyOpts declOnlyModule = PreservedAnalyses.preservedAll :=
  ⟨by decide,
   (C6_empty_short_circuit atomicsOnlyOpts declOnlyModule (by decide)).1,
   (C6_empty_short_circuit atomicsOnlyOpts declOnlyModule (by decide)).2.2.2.2.2.2⟩

/-- C7: every registration/deregistration entry-point pair receives as first argument
the module-wide version, computed once: its bits below 16 equal the base version
constant, and bit 16 is set exactly when the module's code model is medium or large. -/
theorem C7_version (o : Options) (M : Module) (p : RegPair)
    (hp : p ∈ (runModule o M).regPairs) :
    p.version = getVersion M.codeModel
    ∧ getVersion M.codeModel % 2 ^ 16 = kVersionBase
    ∧ (Nat.testBit (getVersion M.codeModel) 16 = true
        ↔ (M.codeModel = some CodeModel.medium ∨ M.codeModel = some CodeModel.large)) := by
  refine ⟨?_, ?_, ?_⟩
  · simp only [runModule] at hp
    split at hp
    · simp at hp
    · dsimp only at hp
      rcases List.mem_map.mp hp with ⟨k, hk, hpk⟩
      rw [← hpk]
      rfl
  · unfold getVersion
    split <;> decide
  · unfold getVersion
    split
    · next hcm =>
      simp [hcm, (by decide : Nat.testBit (kVersionBase ||| kVersionPtrSizeRel) 16 = true)]
    · next hcm =>
      simp [hcm, (by decide : Nat.testBit kVersionBase 16 = false)]

/-- C7 (witness): the theorem applied to the one-atomic-load module with a large code
model, at its Atomics registration pair. -/
theorem C7_witness :
    mkRegPair (getVersion largeCMAtomicModule.codeModel) largeCMAtomicModule.supportsComdat
        MetadataKind.atomics ∈ (runModule atomicsOnlyOpts largeCMAtomicModule).regPairs
    ∧ (mkRegPair (getVersion largeCMAtomicModule.codeModel)
        largeCMAtomicModule.supportsComdat MetadataKind.atomics).version
          = getVersion largeCMAtomicModule.codeModel :=
  ⟨by decide,
   (C7_version atomicsOnlyOpts largeCMAtomicModule _ (by decide)).1⟩

/-- C8: a stack allocation all of whose (transitive, through GEP and no-op pointer-cast
instructions) uses are loads, lifetime annotations, droppable uses, stores with the
allocation as destination, or calls to intrinsic, never-returning, or
sanitizer-name-prefixed functions is classified as safe by the use-after-return
analysis, and classifying it leaves the function feature mask unchanged. -/
theorem C8_safe_alloca (us : UseList) (mrw : Bool) (sc : Option Nat) (o : Options)
    (mis : List MetadataKind) (fm : Nat) (h : claimSafeUses us = true) :
    hasUseAfterReturnUnsafeUses us = false
    ∧ useAfterReturnUnsafeInstr ⟨InstrKind.allocaKind us, mrw, sc⟩ = false
    ∧ (runOnInstruction o ⟨InstrKind.allocaKind us, mrw, sc⟩ mis fm).featureMask = fm := by
  have h1 := claimSafeUses_sound us h
  have h2 : useAfterReturnUnsafeInstr ⟨InstrKind.allocaKind us, mrw, sc⟩ = false := by
    simp [useAfterReturnUnsafeInstr, h1]
  refine ⟨h1, h2, ?_⟩
  show uarUpdatedMask o ⟨InstrKind.allocaKind us, mrw, sc⟩ fm = fm
  unfold uarUpdatedMask
  rw [h2]
  simp

/-- C8 (witness): the theorem applied to a use list exercising every safe category. -/
theorem C8_witness :
    claimSafeUses allSafeUses = true
    ∧ hasUseAfterReturnUnsafeUses allSafeUses = false :=
  ⟨by decide,
   (C8_safe_alloca allSafeUses false none atomicsOnlyOpts [] 0 (by decide)).1⟩

/-- C9: when Atomics tracking is enabled, the per-instruction classifier reports
"requires coverage" for every instruction that may read or write memory, atomic or not;
consequently any processed function containing a memory-accessing instruction receives a
function-level Coverage record with a non-zero feature mask, even if it contains no
atomic instruction. -/
theorem C9_mem_requires_coverage (o : Options) (I : Instruction) (F : Function)
    (mis mis2 : List MetadataKind) (fm : Nat)
    (ha : o.atomics = true) (hrw : I.mayRW = true)
    (hsk : skippedFunc F = false) (hIm : I ∈ F.instrs) :
    (runOnInstruction o I mis fm).requiresCovered = true
    ∧ ∃ m, (runOnFunction o F mis2).funcAttached = some [⟨MetadataKind.covered, [m]⟩]
        ∧ m ≠ 0 := by
  have hscan := scanOrDefault_of_atomics o F mis2 ha
  have hbit0 : (postVarArgMask F (scanOrDefault o F mis2).featureMask).testBit 0 = true := by
    rw [postVarArgMask_testBit_zero, scanOrDefault_testBit_zero,
      getEnabled_of_atomics o ha]
    decide
  have hne : postVarArgMask F (scanOrDefault o F mis2).featureMask ≠ 0 :=
    ne_zero_of_testBit_zero _ hbit0
  have hsrc : (scanOrDefault o F mis2).requiresCovered = true := by
    rw [hscan, scanInstrs_requiresCovered]
    simp only [Bool.false_or]
    exact List.any_eq_true.mpr ⟨I, hIm, by simp [ha, hrw]⟩
  constructor
  · simp [runOnInstruction, ha, hrw]
  · refine ⟨postVarArgMask F (scanOrDefault o F mis2).featureMask, ?_, hne⟩
    have hrc2 : (if postVarArgMask F (scanOrDefault o F mis2).featureMask
          &&& kSanitizerBinaryMetadataUAR ≠ 0
        then true else (scanOrDefault o F mis2).requiresCovered) = true := by
      rw [hsrc]
      split <;> rfl
    rw [runOnFunction_funcAttached_of o F mis2 hsk, if_pos (Or.inr ⟨hne, hrc2⟩)]

/-- C9 (witness): the theorem applied to a non-atomic memory instruction in a function
containing only that instruction, with only Atomics enabled. -/
theorem C9_witness :
    (runOnInstruction atomicsOnlyOpts memInstr [] 0).requiresCovered = true
    ∧ ∃ m, (runOnFunction atomicsOnlyOpts memFunc []).funcAttached
        = some [⟨MetadataKind.covered, [m]⟩] ∧ m ≠ 0 :=
  C9_mem_requires_coverage atomicsOnlyOpts memInstr memFunc [] [] 0 rfl rfl rfl
    (List.Mem.head _)

/-- C10: at the end of a module run, Atomics is in the metadata-kind set exactly when
some instruction record listing Atomics was attached, Coverage exactly when some
function-level Coverage record was emitted, and the registration/deregistration entry
points and section markers are created exactly for the kinds in the set (one pair and
two markers per kind, in set order). -/
theorem C10_mis_iff_attached (o : Options) (M : Module) :
    (MetadataKind.atomics ∈ (runModule o M).mis
        ↔ (runModule o M).funcResults.any hasAtomicsRecord = true)
    ∧ (MetadataKind.covered ∈ (runModule o M).mis
        ↔ (runModule o M).funcResults.any hasCoveredRecord = true)
    ∧ (runModule o M).regPairs.map RegPair.kind = (runModule o M).mis
    ∧ (runModule o M).sectionMarkers.length = 2 * (runModule o M).mis.length := by
  refine ⟨?_, ?_, runModule_regPairs_kinds o M, runModule_markers_len o M⟩
  · rw [runModule_mis, runModule_funcResults, processFunctions_mem_atomics]
    simp
  · rw [runModule_mis, runModule_funcResults, processFunctions_mem_covered]
    simp

end SanitizerBinaryMetadata
